import Mathlib

/-!
Verification of the write-and-rotate core of the lethe log-rotation library.

The Go sources are shallowly embedded: machine integers (uint64/int64) are
modelled as Nat/Int with explicit wraparound where the code can overflow,
fallible operations return Option, and the concurrent ring buffer is modelled
as a step relation whose guards record exactly what each successful
compare-and-swap step of the source can observe.
-/

namespace Lethe

/-- Modulus of Go's uint64 arithmetic. -/
def U64 : Nat := 2 ^ 64

/-! ## Ring buffer (buffer.go) -/

/-- Number of binary digits of n, with explicit fuel (fuel 64 covers every
uint64 value).  This is Go's bits.Len64; bits.LeadingZeros64 n = 64 - len. -/
def bitLenAux : Nat → Nat → Nat
  | 0, _ => 0
  | fuel + 1, n => if n = 0 then 0 else bitLenAux fuel (n / 2) + 1

/-- Go bits.Len64 (number of bits needed to represent n), for n < 2^64. -/
def len64 (n : Nat) : Nat := bitLenAux 64 n

/-- Go bits.LeadingZeros64. -/
def leadingZeros64 (n : Nat) : Nat := 64 - len64 n

/-- nextPow2 from buffer.go: next power of 2 greater than or equal to x.
The Go shift `1 << (64 - bits.LeadingZeros64(x-1))` is uint64 arithmetic, so
for x > 2^63 the shift count is 64 and the result wraps to 0. -/
def nextPow2 (x : Nat) : Nat :=
  if x ≤ 1 then 1 else (1 <<< (64 - leadingZeros64 (x - 1))) % U64

/-- Length of the slice allocated by newRingBuffer (buffer.go): sizes below 64
are bumped to 64, then rounded up to a power of two by nextPow2. -/
def newRingBufferLen (size : Nat) : Nat :=
  nextPow2 (if size < 64 then 64 else size)

/-- The index mask stored by newRingBuffer: size - 1 in uint64 arithmetic
(wraps to 2^64 - 1 when the computed size is 0). -/
def newRingBufferMask (size : Nat) : Nat :=
  (newRingBufferLen size + U64 - 1) % U64

/-- The head/tail counters of the ring buffer.  In the source these are
monotonically increasing uint64 atomics; they are modelled as Nat (the
counters only ever increment, and the full-check keeps tail - head bounded,
so no wraparound is reachable before 2^64 operations). -/
structure RingState where
  head : Nat
  tail : Nat
deriving DecidableEq

/-- One successful atomic step of the ring buffer of length `size`
(buffer.go push / pushOwned / pop), for an arbitrary interleaving of
producers and the consumer.

A successful push CAS implies the tail it observed equals the tail at CAS
time (tail is monotone, so an unchanged value means no intervening push),
while the head it observed (h0) was loaded earlier and head is monotone, so
h0 ≤ head.  The full-check it passed is `tail - h0 < size` (uint64
subtraction; equal to Nat subtraction since h0 ≤ head ≤ tail in every
reachable state).  Dually for pop: the head it observed equals head at CAS
time, and the tail it observed (t0) satisfies t0 ≤ tail, with the passed
empty-check `head < t0`.  pushOwned has exactly the control flow of push. -/
inductive RingStep (size : Nat) : RingState → RingState → Prop
  | push (s : RingState) (h0 : Nat) (hobs : h0 ≤ s.head)
      (hfull : s.tail - h0 < size) : RingStep size s ⟨s.head, s.tail + 1⟩
  | pushOwned (s : RingState) (h0 : Nat) (hobs : h0 ≤ s.head)
      (hfull : s.tail - h0 < size) : RingStep size s ⟨s.head, s.tail + 1⟩
  | pop (s : RingState) (t0 : Nat) (hobs : t0 ≤ s.tail)
      (hne : s.head < t0) : RingStep size s ⟨s.head + 1, s.tail⟩

/-- States of the ring buffer reachable from a fresh ring (head = tail = 0)
by any sequence of push, pushOwned and pop steps. -/
inductive RingReachable (size : Nat) : RingState → Prop
  | init : RingReachable size ⟨0, 0⟩
  | step {s t : RingState} : RingReachable size s → RingStep size s t →
      RingReachable size t

/-! ## Auto-scaling predicate (lethe.go) -/

/-- shouldScaleToMPSC from lethe.go, as a function of the four metrics
counters (uint64).  avgLatency is the source's integer division
totalLatency / writeCount.  The source's final test
float64(contentionCount) / float64(writeCount) > 0.1 is modelled by the
exact comparison 10 * contentionCount > writeCount (the float64 comparison
agrees with the exact rational one for all counter values below 2^53). -/
def shouldScaleToMPSC (writeCount contentionCount totalLatency lastLatency : Nat) : Bool :=
  if writeCount < 100 then false
  else
    let avgLatency := totalLatency / writeCount
    if 0 < contentionCount ∧ 1000 < writeCount then true
    else if 1000000 < avgLatency then true
    else if 5000000 < lastLatency then true
    else if writeCount < 10 * contentionCount then true
    else false

/-! ## Async write path (lethe.go) -/

/-- Metrics counters touched by the backpressure handling of the async write
path (lethe.go). -/
structure AsyncCounters where
  contentionCount : Nat
  droppedCount : Nat
deriving DecidableEq

/-- Outcome of writeAsync towards the caller: either it returned (n, nil)
directly, or it delegated the given bytes to the sync write path (whose
result it then returns unchanged). -/
inductive AsyncOutcome where
  | returned (n : Nat)
  | syncFallback (data : List Nat)
deriving DecidableEq

/-- writeAsync from lethe.go, once the ring buffer exists.  pushOk is the
result of buffer.push(data); for the adaptive policy, resizeOk abstracts the
result of tryAdaptiveResize and retryOk the result of the retry push into
the resized buffer.  Bytes are modelled as a list of byte values. -/
def writeAsync (st : AsyncCounters) (data : List Nat)
    (pushOk resizeOk retryOk : Bool) (policy : String) :
    AsyncCounters × AsyncOutcome :=
  if pushOk then (st, AsyncOutcome.returned data.length)
  else
    let st1 : AsyncCounters := { st with contentionCount := st.contentionCount + 1 }
    let p := if policy = "" then ("fallback") else policy
    if p = ("drop") then
      ({ st1 with droppedCount := st1.droppedCount + 1 },
        AsyncOutcome.returned data.length)
    else if p = ("adaptive") then
      if resizeOk && retryOk then (st1, AsyncOutcome.returned data.length)
      else (st1, AsyncOutcome.syncFallback data)
    else (st1, AsyncOutcome.syncFallback data)

/-! ## Rotation (rotation.go, lethe.go) -/

/-- Rotation-related cells of the Logger: rotation sequence, bytes written
to the active file, and the file-creation instant (Unix seconds). -/
structure RotationState where
  rotationSeq : Nat
  bytesWritten : Nat
  fileCreated : Int
deriving DecidableEq

/-- updateRotationState from rotation.go: reset the byte counter, stamp the
creation instant, increment the rotation sequence. -/
def updateRotationState (st : RotationState) (nowSec : Int) : RotationState :=
  { rotationSeq := st.rotationSeq + 1, bytesWritten := 0, fileCreated := nowSec }

/-- Left-pad a number to two decimal digits (the 01/02/15/04/05 fields of
the Go layout). -/
def pad2 (n : Nat) : String :=
  if n < 10 then ("0") ++ toString n else toString n

/-- Left-pad a number to four decimal digits (the 2006 field of the Go
layout). -/
def pad4 (n : Nat) : String :=
  if n < 10 then ("000") ++ toString n
  else if n < 100 then ("00") ++ toString n
  else if n < 1000 then ("0") ++ toString n
  else toString n

/-- Conversion of a day number (days since 1970-01-01, possibly negative)
to the civil (year, month, day) in the proleptic Gregorian calendar; used to
model Go's UTC time formatting. -/
def civilFromDays (z0 : Int) : Int × Nat × Nat :=
  let z := z0 + 719468
  let era := z.ediv 146097
  let doe := (z - era * 146097).toNat
  let yoe := (doe - doe / 1460 + doe / 36524 - doe / 146096) / 365
  let y := (yoe : Int) + era * 400
  let doy := doe - (365 * yoe + yoe / 4 - yoe / 100)
  let mp := (5 * doy + 2) / 153
  let d := doy - (153 * mp + 2) / 5 + 1
  let m := if mp < 10 then mp + 3 else mp - 9
  (if m ≤ 2 then y + 1 else y, m, d)

/-- The Go layout 2006-01-02-15-04-05 applied to a Unix-seconds instant in
UTC: second resolution, with no sub-second or disambiguating component. -/
def formatSecond (sec : Int) : String :=
  let days := sec.ediv 86400
  let sod := (sec.emod 86400).toNat
  let c := civilFromDays days
  pad4 c.1.toNat ++ ("-") ++ pad2 c.2.1 ++ ("-") ++ pad2 c.2.2 ++ ("-") ++
    pad2 (sod / 3600) ++ ("-") ++ pad2 (sod % 3600 / 60) ++ ("-") ++ pad2 (sod % 60)

/-- generateBackupName from rotation.go: the base filename, a dot, and the
second-resolution timestamp — a pure function of the filename and the clock
second, with no disambiguating data.  This models the default LocalTime =
false (UTC formatting); with LocalTime the rendering differs but remains a
pure function of the same clock second, so the collision behaviour is
identical. -/
def generateBackupName (filename : String) (nowSec : Int) : String :=
  filename ++ (".") ++ formatSecond nowSec

/-- The success path of performRotation from rotation.go, as it affects the
rotation state and the chosen backup name. -/
def performRotationModel (filename : String) (st : RotationState) (nowSec : Int) :
    RotationState × String :=
  (updateRotationState st nowSec, generateBackupName filename nowSec)

/-- triggerRotation from lethe.go over the rotation state.  The CAS winner
(flag previously false) runs performRotation — result abstracted by
performOk — and reports a failure through the error callback, modelled as
the returned list of reported operation tags; the CAS loser does nothing.
The deferred store clears the winner's flag on every exit path. -/
def triggerRotation (st : RotationState) (rotationFlag : Bool)
    (performOk : Bool) (nowSec : Int) : RotationState × Bool × List String :=
  if rotationFlag then (st, rotationFlag, [])
  else if performOk then (updateRotationState st nowSec, false, [])
  else (st, false, [("rotation")])

/-- Rotate from lethe.go: calls triggerRotation and returns nil. -/
def Rotate (st : RotationState) (rotationFlag performOk : Bool) (nowSec : Int) :
    (RotationState × Bool × List String) × Option Nat :=
  (triggerRotation st rotationFlag performOk nowSec, none)

/-- A log file name used to state concrete evaluations. -/
def exampleLog : String := "app.log"

/-! ## Sync write path (lethe.go) -/

/-- The Logger cells read and written by writeSync (lethe.go). -/
structure SyncState where
  bytesWritten : Nat
  rotationSeq : Nat
  rotationFlag : Bool
  fileCreated : Int
  contentionCount : Nat
  totalLatency : Nat
  lastLatency : Nat
deriving DecidableEq

/-- writeSync from lethe.go with the file already initialized (the claim's
premise is that the underlying file write runs).  fileWriteN and
fileWriteErr are the two results of file.Write(data); shouldRot abstracts
shouldRotate(newSize) and performOk the result of performRotation inside
triggerRotation; latency is the elapsed time recorded by the deferred
measurement and nowSec the clock read during a successful rotation. -/
def writeSync (st : SyncState) (fileWriteN : Nat) (fileWriteErr : Option Nat)
    (shouldRot performOk : Bool) (latency : Nat) (nowSec : Int) :
    SyncState × (Nat × Option Nat) :=
  let st1 := if st.rotationFlag
    then { st with contentionCount := st.contentionCount + 1 } else st
  match fileWriteErr with
  | some e =>
    ({ st1 with lastLatency := latency, totalLatency := st1.totalLatency + latency },
      (fileWriteN, some e))
  | none =>
    let st2 := { st1 with bytesWritten := st1.bytesWritten + fileWriteN }
    let st3 := if shouldRot then
        (if st2.rotationFlag then st2
         else if performOk then
           { st2 with
             bytesWritten := 0,
             rotationSeq := st2.rotationSeq + 1,
             fileCreated := nowSec }
         else st2)
      else st2
    ({ st3 with lastLatency := latency, totalLatency := st3.totalLatency + latency },
      (fileWriteN, none))

/-! ## Close (lethe.go) -/

/-- Close-relevant state of the Logger: the sync.Once guard and which
resources have been shut down. -/
structure CloseState where
  closeDone : Bool
  consumerStopped : Bool
  workersStopped : Bool
  timeCacheStopped : Bool
  fileClosed : Bool
deriving DecidableEq

/-- Close from lethe.go.  closeOnce.Do runs the shutdown body only on the
first call, and closeErr is a fresh local on every call, so a call whose
body is skipped returns nil.  hasConsumer, hasWorkers, hasTimeCache and
hasFile say which cells are non-nil; fileCloseErr is the result of
file.Close() when it runs. -/
def Close (l : CloseState) (hasConsumer hasWorkers hasTimeCache hasFile : Bool)
    (fileCloseErr : Option Nat) : CloseState × Option Nat :=
  if l.closeDone then (l, none)
  else
    ({ closeDone := true,
       consumerStopped := l.consumerStopped || hasConsumer,
       workersStopped := l.workersStopped || hasWorkers,
       timeCacheStopped := l.timeCacheStopped || hasTimeCache,
       fileClosed := l.fileClosed || hasFile },
      if hasFile then fileCloseErr else none)

/-! ## Parsing (config.go, and Go's strconv.ParseInt / time.ParseDuration,
which config.go delegates to).  Strings are modelled as lists of
characters. -/

/-- Decimal digit test, matching the Go comparisons c >= '0' && c <= '9'
(48 and 57 are the code points of '0' and '9'). -/
def isDigitChar (c : Char) : Prop := 48 ≤ c.toNat ∧ c.toNat ≤ 57

instance (c : Char) : Decidable (isDigitChar c) := by
  unfold isDigitChar; infer_instance

/-- Decimal accumulation x*10 + digit value, folded over a character
list. -/
def foldDigits (x : Nat) : List Char → Nat
  | [] => x
  | c :: cs => foldDigits (x * 10 + (c.toNat - 48)) cs

/-- Value of a decimal digit string. -/
def digitsVal (ds : List Char) : Nat := foldDigits 0 ds

/-- Digit accumulation of Go's strconv.ParseUint (base 10): fails on any
non-digit character.  The exact Nat value replaces Go's per-digit overflow
checks; parseInt64 below applies the int64 range check, which subsumes
them. -/
def decValAux : List Char → Nat → Option Nat
  | [], acc => some acc
  | c :: cs, acc =>
    if isDigitChar c then decValAux cs (acc * 10 + (c.toNat - 48)) else none

/-- Go strconv.ParseInt(s, 10, 64): optional sign, then a nonempty digit
string, with the result required to be in the int64 range. -/
def parseInt64 (s : List Char) : Option Int :=
  match s with
  | [] => none
  | c :: rest =>
    let neg := c = '-'
    let digits := if c = '-' ∨ c = '+' then rest else s
    if digits = [] then none
    else
      match decValAux digits 0 with
      | none => none
      | some v =>
        if neg then (if v ≤ 2 ^ 63 then some (-(v : Int)) else none)
        else (if v < 2 ^ 63 then some ((v : Int)) else none)

/-- Two's-complement wraparound of an int64 computation. -/
def wrap64 (x : Int) : Int := (x + 2 ^ 63) % 2 ^ 64 - 2 ^ 63

/-- ParseSize from config.go: a plain integer is a byte count; otherwise a
case-insensitive binary suffix KB/MB/GB/TB/K/M/G/T scales the integer number
part, and the product (int64 arithmetic) is rejected if it wrapped to a
negative value. -/
def ParseSize (s : List Char) : Option Int :=
  if s = [] then none
  else
    match parseInt64 s with
    | some v => some v
    | none =>
      let u := s.map Char.toUpper
      let sel : Option (Int × List Char) :=
        if List.isSuffixOf ['K', 'B'] u then some (1024, u.take (u.length - 2))
        else if List.isSuffixOf ['M', 'B'] u then some (1048576, u.take (u.length - 2))
        else if List.isSuffixOf ['G', 'B'] u then some (1073741824, u.take (u.length - 2))
        else if List.isSuffixOf ['T', 'B'] u then some (1099511627776, u.take (u.length - 2))
        else if List.isSuffixOf ['K'] u then some (1024, u.take (u.length - 1))
        else if List.isSuffixOf ['M'] u then some (1048576, u.take (u.length - 1))
        else if List.isSuffixOf ['G'] u then some (1073741824, u.take (u.length - 1))
        else if List.isSuffixOf ['T'] u then some (1099511627776, u.take (u.length - 1))
        else none
      match sel with
      | none => none
      | some (mult, numStr) =>
        match parseInt64 numStr with
        | none => none
        | some v =>
          let result := wrap64 (v * mult)
          if result < 0 then none else some result

/-- leadingInt from Go's time/format.go: consume leading decimal digits into
a uint64 accumulator, failing on overflow past 2^63. -/
def leadingIntGo : List Char → Nat → Option (Nat × List Char)
  | [], x => some (x, [])
  | c :: rest, x =>
    if isDigitChar c then
      if 2 ^ 63 / 10 < x then none
      else
        let y := x * 10 + (c.toNat - 48)
        if 2 ^ 63 < y then none
        else leadingIntGo rest y
    else some (x, c :: rest)

/-- leadingFraction from Go's time/format.go: consume the digits after the
decimal point, tracking value and scale and silently saturating on
overflow. -/
def leadingFractionGo : List Char → Nat → Nat → Bool → Nat × Nat × List Char
  | [], x, scale, _ => (x, scale, [])
  | c :: rest, x, scale, overflow =>
    if isDigitChar c then
      if overflow then leadingFractionGo rest x scale overflow
      else if (2 ^ 63 - 1) / 10 < x then leadingFractionGo rest x scale true
      else
        let y := x * 10 + (c.toNat - 48)
        if 2 ^ 63 < y then leadingFractionGo rest x scale true
        else leadingFractionGo rest y (scale * 10) overflow
    else (x, scale, c :: rest)

/-- The unit table of Go's time.ParseDuration (nanoseconds per unit). -/
def unitMapGo (u : List Char) : Option Nat :=
  if u = ['n', 's'] then some 1
  else if u = ['u', 's'] then some 1000
  else if u = ['µ', 's'] then some 1000
  else if u = ['μ', 's'] then some 1000
  else if u = ['m', 's'] then some 1000000
  else if u = ['s'] then some 1000000000
  else if u = ['m'] then some 60000000000
  else if u = ['h'] then some 3600000000000
  else none

/-- The accumulation loop of Go's time.ParseDuration over the remaining
string, with explicit fuel (every iteration consumes at least one character,
so length + 1 fuel always suffices and the fuel-exhausted branch is
unreachable from goParseDuration).  The fractional contribution
uint64(float64(f) * (float64(unit) / scale)) is modelled by the exact
f * unit / scale (scale is a power of ten; the float64 computation agrees on
the exactly representable values). -/
def goParseSegs : Nat → List Char → Nat → Option Nat
  | 0, _, _ => none
  | _, [], d => some d
  | fuel + 1, c :: s0, d =>
    if ¬ (c = '.' ∨ isDigitChar c) then none
    else
      match leadingIntGo (c :: s0) 0 with
      | none => none
      | some (v, rest1) =>
        let pre : Bool := rest1.length != (c :: s0).length
        let hasDot : Bool := rest1.head? == some '.'
        let tl1 := if hasDot then rest1.tail else rest1
        let q := if hasDot then leadingFractionGo tl1 0 1 false else (0, 1, rest1)
        let f := q.1
        let scale := q.2.1
        let rest2 := q.2.2
        let post : Bool := hasDot && (rest2.length != tl1.length)
        if pre = false ∧ post = false then none
        else
          let u := rest2.takeWhile (fun ch => decide (¬ (ch = '.' ∨ isDigitChar ch)))
          let rest3 := rest2.drop u.length
          if u = [] then none
          else
            match unitMapGo u with
            | none => none
            | some unitv =>
              if 2 ^ 63 / unitv < v then none
              else
                let v1 := v * unitv
                let v2 := if 0 < f then v1 + f * unitv / scale else v1
                if 0 < f ∧ 2 ^ 63 < v2 then none
                else
                  let d1 := d + v2
                  if 2 ^ 63 < d1 then none
                  else goParseSegs fuel rest3 d1

/-- Go's time.ParseDuration: optional sign, the special case "0", then the
segment loop.  A negative total is negated in int64 arithmetic before the
upper-bound check, which applies only to positive results. -/
def goParseDuration (s : List Char) : Option Int :=
  match s with
  | [] => none
  | c :: tl =>
    let neg := c = '-'
    let s1 := if c = '-' ∨ c = '+' then tl else c :: tl
    if s1 = ['0'] then some 0
    else if s1 = [] then none
    else
      match goParseSegs (s1.length + 1) s1 0 with
      | none => none
      | some d =>
        if neg then some (wrap64 (-(wrap64 ((d : Int)))))
        else if 2 ^ 63 - 1 < d then none
        else some ((d : Int))

/-- ParseDuration from config.go: try Go's time.ParseDuration first, then
the custom suffixes d (24 h), w (7 d) and y (365 d) on the lower-cased
string, whose number part must parse as an int64;
time.Duration(val) * multiplier is int64 arithmetic. -/
def ParseDuration (s : List Char) : Option Int :=
  if s = [] then none
  else
    match goParseDuration s with
    | some d => some d
    | none =>
      let t := s.map Char.toLower
      let sel : Option (Int × List Char) :=
        if List.isSuffixOf ['d'] t then
          some (86400000000000, t.take (t.length - 1))
        else if List.isSuffixOf ['w'] t then
          some (604800000000000, t.take (t.length - 1))
        else if List.isSuffixOf ['y'] t then
          some (31536000000000000, t.take (t.length - 1))
        else none
      match sel with
      | none => none
      | some (mult, numStr) =>
        match parseInt64 numStr with
        | none => none
        | some v => some (wrap64 (v * mult))

/-! ## Constructor (lethe.go NewWithConfig) -/

/-- LoggerConfig from lethe.go: the fields read by NewWithConfig.  Field
defaults are the Go zero values. -/
structure LoggerConfig where
  filename : List Char := []
  maxSize : Int := 0
  maxBackups : Int := 0
  maxAge : Int := 0
  maxFileAge : Int := 0
  localTime : Bool := false
  compress : Bool := false
  checksum : Bool := false
  async : Bool := false
  maxSizeStr : List Char := []
  maxAgeStr : List Char := []
  backpressurePolicy : List Char := []
  adaptiveFlush : Bool := false
deriving DecidableEq

/-- The Logger fields populated by NewWithConfig: the copied configuration
snapshot plus the fields it defaults (durations in nanoseconds; 420 is file
mode 0644). -/
structure Logger where
  filename : List Char
  maxSize : Int
  maxBackups : Int
  maxAge : Int
  maxFileAge : Int
  localTime : Bool
  compress : Bool
  checksum : Bool
  async : Bool
  maxSizeStr : List Char
  maxAgeStr : List Char
  backpressurePolicy : List Char
  adaptiveFlush : Bool
  fileMode : Nat
  retryCount : Int
  retryDelay : Int
  bufferSize : Int
  flushInterval : Int
deriving DecidableEq

/-- NewWithConfig from lethe.go.  none models both the nil-config rejection
and every error return; the field copy, the defaulting of unset values, the
MaxAge/MaxAgeStr conflict check and the MaxAgeStr parse follow the source
order.  Note that neither MaxSize nor MaxSizeStr is validated here. -/
def NewWithConfig (config : Option LoggerConfig) : Option Logger :=
  match config with
  | none => none
  | some cfg =>
    if cfg.filename = [] then none
    else
      let l : Logger :=
        { filename := cfg.filename,
          maxSize := cfg.maxSize,
          maxBackups := cfg.maxBackups,
          maxAge := cfg.maxAge,
          maxFileAge := cfg.maxFileAge,
          localTime := cfg.localTime,
          compress := cfg.compress,
          checksum := cfg.checksum,
          async := cfg.async,
          maxSizeStr := cfg.maxSizeStr,
          maxAgeStr := cfg.maxAgeStr,
          backpressurePolicy := cfg.backpressurePolicy,
          adaptiveFlush := cfg.adaptiveFlush,
          fileMode := 0,
          retryCount := 0,
          retryDelay := 0,
          bufferSize := 0,
          flushInterval := 0 }
      let l :=
        { l with
          fileMode := if l.fileMode = 0 then 420 else l.fileMode,
          retryCount := if l.retryCount = 0 then 3 else l.retryCount,
          retryDelay := if l.retryDelay = 0 then 10000000 else l.retryDelay,
          bufferSize := if l.bufferSize = 0 then 1024 else l.bufferSize,
          backpressurePolicy :=
            if l.backpressurePolicy = [] then ['f', 'a', 'l', 'l', 'b', 'a', 'c', 'k']
            else l.backpressurePolicy,
          flushInterval := if l.flushInterval = 0 then 1000000 else l.flushInterval }
      if (0 : Int) < l.maxAge ∧ l.maxAgeStr ≠ [] then none
      else if l.maxAgeStr ≠ [] then
        match ParseDuration l.maxAgeStr with
        | none => none
        | some dur => some { l with maxAge := dur }
      else some l

/-- A configuration whose MaxSizeStr is not a parseable size. -/
def cfgBadSizeStr : LoggerConfig :=
  { filename := ['a', 'p', 'p', '.', 'l', 'o', 'g'],
    maxSizeStr := ['n', 'o', 't', 'a', 's', 'i', 'z', 'e'] }

/-- A configuration that sets both the numeric MaxSize and the string
MaxSizeStr (a conflicting size specification). -/
def cfgConflictSize : LoggerConfig :=
  { filename := ['a', 'p', 'p', '.', 'l', 'o', 'g'],
    maxSize := 5,
    maxSizeStr := ['1', '0', 'M', 'B'] }

end Lethe

namespace Lethe

/-! ## Theorems: C1 and C4 -/

theorem bitLenAux_zero (fuel : Nat) : bitLenAux fuel 0 = 0 := by
  cases fuel <;> simp [bitLenAux]

theorem bitLenAux_le (fuel : Nat) : ∀ n : Nat, bitLenAux fuel n ≤ fuel := by
  induction fuel with
  | zero => intro n; simp [bitLenAux]
  | succ fuel ih =>
    intro n
    by_cases h : n = 0
    · simp [bitLenAux, h]
    · simp only [bitLenAux, if_neg h]
      exact Nat.succ_le_succ (ih (n / 2))

theorem bitLenAux_spec (fuel : Nat) : ∀ n : Nat, n < 2 ^ fuel → n ≠ 0 →
    0 < bitLenAux fuel n ∧ 2 ^ (bitLenAux fuel n - 1) ≤ n ∧
      n < 2 ^ bitLenAux fuel n := by
  induction fuel with
  | zero => intro n hn hne; simp at hn; omega
  | succ fuel ih =>
    intro n hn hne
    simp only [bitLenAux, if_neg hne]
    by_cases h2 : n / 2 = 0
    · have hn1 : n = 1 := by omega
      subst hn1
      simp [h2, bitLenAux_zero]
    · have hlt : n / 2 < 2 ^ fuel := by
        have hpow : 2 ^ (fuel + 1) = 2 * 2 ^ fuel := by ring
        omega
      obtain ⟨hpos, hlow, hhigh⟩ := ih (n / 2) hlt h2
      refine ⟨Nat.succ_pos _, ?_, ?_⟩
      · have he : 2 ^ (bitLenAux fuel (n / 2) + 1 - 1)
            = 2 * 2 ^ (bitLenAux fuel (n / 2) - 1) := by
          rw [Nat.succ_sub_one]
          conv_lhs => rw [show bitLenAux fuel (n / 2) = (bitLenAux fuel (n / 2) - 1) + 1 by omega]
          ring
        rw [he]
        omega
      · have he : 2 ^ (bitLenAux fuel (n / 2) + 1)
            = 2 * 2 ^ (bitLenAux fuel (n / 2)) := by ring
        rw [he]
        omega

/-- C1: in every ring-buffer state reachable by any interleaving of push,
pushOwned and pop steps from a fresh ring, head ≤ tail and
tail − head ≤ size hold (size = length of the buffer slice). -/
theorem ringBuffer_invariant {size : Nat} {s : RingState}
    (h : RingReachable size s) : s.head ≤ s.tail ∧ s.tail - s.head ≤ size := by
  induction h with
  | init => simp
  | step hr hstep ih =>
    cases hstep with
    | push h0 hobs hfull => dsimp only at *; omega
    | pushOwned h0 hobs hfull => dsimp only at *; omega
    | pop t0 hobs hne => dsimp only at *; omega

/-- Witness for C1: the invariant evaluated in the state reached by a single
push into a fresh ring of length 64. -/
theorem ringBuffer_invariant_witness :
    (⟨0, 1⟩ : RingState).head ≤ (⟨0, 1⟩ : RingState).tail ∧
      (⟨0, 1⟩ : RingState).tail - (⟨0, 1⟩ : RingState).head ≤ 64 :=
  ringBuffer_invariant
    (RingReachable.step RingReachable.init
      (RingStep.push ⟨0, 0⟩ 0 (Nat.le_refl 0) (by decide)))

/-- C4 (amended): for every requested capacity n ≤ 2^63 (the range reachable
from the library's callers, whose buffer sizes are positive Go ints),
newRingBuffer allocates a buffer whose length is the least power of two
greater than or equal to max n 64, with index mask = length − 1.  For larger
n the uint64 shift in nextPow2 overflows (see the counterexample). -/
theorem newRingBuffer_capacity (n : Nat) (hn : n ≤ 2 ^ 63) :
    (∃ i, newRingBufferLen n = 2 ^ i) ∧
    max n 64 ≤ newRingBufferLen n ∧
    (∀ k i : Nat, k = 2 ^ i → max n 64 ≤ k → newRingBufferLen n ≤ k) ∧
    newRingBufferMask n = newRingBufferLen n - 1 := by
  have hm : (if n < 64 then 64 else n) = max n 64 := by split <;> omega
  set m := max n 64 with hmdef
  have hm64 : 64 ≤ m := le_max_right n 64
  have hmle : m ≤ 2 ^ 63 := by
    have : (64 : Nat) ≤ 2 ^ 63 := by norm_num
    omega
  have hne : m - 1 ≠ 0 := by omega
  have hm1lt : m - 1 < 2 ^ 64 := by
    have : (2 : Nat) ^ 63 < 2 ^ 64 := by norm_num
    omega
  obtain ⟨hpos, hlow, hhigh⟩ := bitLenAux_spec 64 (m - 1) hm1lt hne
  set k := bitLenAux 64 (m - 1) with hkdef
  have hk_le : k ≤ 64 := bitLenAux_le 64 (m - 1)
  have hk63 : k ≤ 63 := by
    by_contra hcon
    have hk64 : k = 64 := by omega
    have : (2 : Nat) ^ 63 ≤ 2 ^ (k - 1) := by
      rw [hk64]
    omega
  have hlen : newRingBufferLen n = 2 ^ k := by
    unfold newRingBufferLen nextPow2
    rw [hm]
    have hnot : ¬ m ≤ 1 := by omega
    rw [if_neg hnot]
    have hlz : 64 - leadingZeros64 (m - 1) = k := by
      unfold leadingZeros64 len64
      omega
    rw [hlz]
    have hshift : (1 : Nat) <<< k = 2 ^ k := by
      simp [Nat.shiftLeft_eq]
    rw [hshift]
    apply Nat.mod_eq_of_lt
    calc 2 ^ k ≤ 2 ^ 63 := Nat.pow_le_pow_right (by norm_num) hk63
    _ < U64 := by norm_num [U64]
  refine ⟨⟨k, hlen⟩, ?_, ?_, ?_⟩
  · rw [hlen]; omega
  · intro j i hji hmj
    rw [hlen, hji] at *
    have hki : k ≤ i := by
      by_contra hcon
      have hik : i ≤ k - 1 := by omega
      have : (2 : Nat) ^ i ≤ 2 ^ (k - 1) :=
        Nat.pow_le_pow_right (by norm_num) hik
      omega
    exact Nat.pow_le_pow_right (by norm_num) hki
  · unfold newRingBufferMask
    rw [hlen]
    have hgt : 1 ≤ 2 ^ k := Nat.one_le_two_pow
    have he : 2 ^ k + U64 - 1 = (2 ^ k - 1) + U64 := by omega
    rw [he, Nat.add_mod_right]
    apply Nat.mod_eq_of_lt
    have : (2 : Nat) ^ k ≤ 2 ^ 63 := Nat.pow_le_pow_right (by norm_num) hk63
    have : (2 : Nat) ^ 63 < U64 := by norm_num [U64]
    omega

/-- Witness for C4: the amended capacity theorem evaluated at the requested
capacity 100 (length 128 = 2^7, mask 127). -/
theorem newRingBuffer_capacity_witness :
    (∃ i, newRingBufferLen 100 = 2 ^ i) ∧
    max 100 64 ≤ newRingBufferLen 100 ∧
    (∀ k i : Nat, k = 2 ^ i → max 100 64 ≤ k → newRingBufferLen 100 ≤ k) ∧
    newRingBufferMask 100 = newRingBufferLen 100 - 1 :=
  newRingBuffer_capacity 100 (by norm_num)

/-- Counterexample for C4 as stated: at the requested capacity 2^63 + 1 the
uint64 shift in nextPow2 overflows and the allocated buffer has length 0,
which is not a power of two ≥ max (2^63 + 1) 64 (the true least power of two,
2^64, is not representable). -/
theorem newRingBuffer_capacity_cex :
    newRingBufferLen (2 ^ 63 + 1) = 0 ∧
    ¬ (∃ i, newRingBufferLen (2 ^ 63 + 1) = 2 ^ i ∧
        max (2 ^ 63 + 1) 64 ≤ newRingBufferLen (2 ^ 63 + 1)) := by
  have h : newRingBufferLen (2 ^ 63 + 1) = 0 := by decide
  refine ⟨h, ?_⟩
  rintro ⟨i, hi, hle⟩
  rw [h] at hle
  omega

/-! ## Theorem: C3 -/

/-- C3: shouldScaleToMPSC returns true iff writeCount ≥ 100 and at least one
of: (a) contentions > 0 and writes > 1000; (b) average latency
totalLatency / writeCount (integer division, as in the source) above 1 ms;
(c) last latency above 5 ms; (d) contention ratio above 10 % (stated as the
exact rational comparison).  In particular it is false whenever
writeCount < 100. -/
theorem shouldScaleToMPSC_iff (w c T L : Nat) :
    shouldScaleToMPSC w c T L = true ↔
      (100 ≤ w ∧ ((0 < c ∧ 1000 < w) ∨ 1000000 < T / w ∨ 5000000 < L ∨
        (1 : ℚ) / 10 < (c : ℚ) / (w : ℚ))) := by
  have key : shouldScaleToMPSC w c T L = true ↔
      (100 ≤ w ∧ ((0 < c ∧ 1000 < w) ∨ 1000000 < T / w ∨ 5000000 < L ∨
        w < 10 * c)) := by
    by_cases h1 : w < 100
    · simp only [shouldScaleToMPSC, if_pos h1]
      constructor
      · intro h; exact absurd h (by simp)
      · rintro ⟨hw, _⟩; omega
    · have hw : 100 ≤ w := by omega
      simp only [shouldScaleToMPSC, if_neg h1]
      by_cases h2 : 0 < c ∧ 1000 < w
      · simp [h2, hw]
      · rw [if_neg h2]
        by_cases h3 : 1000000 < T / w
        · simp [h3, hw]
        · rw [if_neg h3]
          by_cases h4 : 5000000 < L
          · simp [h4, hw]
          · rw [if_neg h4]
            by_cases h5 : w < 10 * c
            · simp [h5, hw]
            · simp [h5, hw, h2, h3, h4]
  rw [key]
  have hratio : 100 ≤ w →
      (((1 : ℚ) / 10 < (c : ℚ) / (w : ℚ)) ↔ w < 10 * c) := by
    intro hw
    have hw0 : (0 : ℚ) < (w : ℚ) := by
      have h0 : 0 < w := by omega
      exact_mod_cast h0
    rw [div_lt_div_iff₀ (by norm_num) hw0, one_mul, mul_comm]
    exact_mod_cast Iff.rfl
  constructor
  · rintro ⟨hw, h | h | h | h⟩
    · exact ⟨hw, Or.inl h⟩
    · exact ⟨hw, Or.inr (Or.inl h)⟩
    · exact ⟨hw, Or.inr (Or.inr (Or.inl h))⟩
    · exact ⟨hw, Or.inr (Or.inr (Or.inr ((hratio hw).mpr h)))⟩
  · rintro ⟨hw, h | h | h | h⟩
    · exact ⟨hw, Or.inl h⟩
    · exact ⟨hw, Or.inr (Or.inl h)⟩
    · exact ⟨hw, Or.inr (Or.inr (Or.inl h))⟩
    · exact ⟨hw, Or.inr (Or.inr (Or.inr ((hratio hw).mp h)))⟩

/-! ## Theorem: C2 -/

/-- C2: on every async write that finds the ring full (push returns false),
the contention counter is incremented before the backpressure policy is
applied; under the drop policy the drop counter is incremented and the call
returns the full byte count with no error; under the fallback or any
default/unknown policy the same bytes are delegated to the sync write path
and the drop counter is untouched. -/
theorem writeAsync_ringFull (st : AsyncCounters) (data : List Nat)
    (resizeOk retryOk : Bool) (policy : String) :
    (writeAsync st data false resizeOk retryOk policy).1.contentionCount
        = st.contentionCount + 1 ∧
    (policy = ("drop") →
      (writeAsync st data false resizeOk retryOk policy).1.droppedCount
          = st.droppedCount + 1 ∧
      (writeAsync st data false resizeOk retryOk policy).2
          = AsyncOutcome.returned data.length) ∧
    (policy ≠ ("drop") → policy ≠ ("adaptive") →
      (writeAsync st data false resizeOk retryOk policy).2
          = AsyncOutcome.syncFallback data ∧
      (writeAsync st data false resizeOk retryOk policy).1.droppedCount
          = st.droppedCount) := by
  refine ⟨?_, ?_, ?_⟩
  · by_cases he : policy = ""
    · subst he; rfl
    · by_cases hd : policy = ("drop")
      · subst hd; rfl
      · by_cases ha : policy = ("adaptive")
        · subst ha; cases resizeOk <;> cases retryOk <;> rfl
        · simp [writeAsync, he, hd, ha]
  · intro hd
    subst hd
    exact ⟨rfl, rfl⟩
  · intro hd ha
    by_cases he : policy = ""
    · subst he; exact ⟨rfl, rfl⟩
    · simp [writeAsync, he, hd, ha]

/-- Witness for C2: the drop branch evaluated on a concrete full-ring write
of three bytes. -/
theorem writeAsync_ringFull_witness :
    (writeAsync ⟨0, 0⟩ [1, 2, 3] false false false ("drop")).1.droppedCount
        = 0 + 1 ∧
    (writeAsync ⟨0, 0⟩ [1, 2, 3] false false false ("drop")).2
        = AsyncOutcome.returned ([1, 2, 3] : List Nat).length :=
  (writeAsync_ringFull ⟨0, 0⟩ [1, 2, 3] false false ("drop")).2.1 rfl

/-! ## Theorems: C6 -/

/-- C6 (amended): each completed rotation strictly increases the rotation
sequence counter, but the backup name has no tie-breaking: a second rotation
on the same clock tick produces exactly the same backup name as the
first. -/
theorem rotation_seq_monotone_and_names (f : String) (st : RotationState)
    (t t2 : Int) :
    st.rotationSeq < (performRotationModel f st t).1.rotationSeq ∧
    (t2 = t →
      (performRotationModel f (performRotationModel f st t).1 t2).2
        = (performRotationModel f st t).2) := by
  constructor
  · simp [performRotationModel, updateRotationState]
  · intro h; subst h; rfl

/-- Witness for C6: the amended statement evaluated for two rotations of
app.log on the same tick. -/
theorem rotation_seq_monotone_and_names_witness :
    (⟨0, 0, 0⟩ : RotationState).rotationSeq
        < (performRotationModel exampleLog ⟨0, 0, 0⟩ 0).1.rotationSeq ∧
    (performRotationModel exampleLog
        (performRotationModel exampleLog ⟨0, 0, 0⟩ 0).1 0).2
      = (performRotationModel exampleLog ⟨0, 0, 0⟩ 0).2 :=
  ⟨(rotation_seq_monotone_and_names exampleLog ⟨0, 0, 0⟩ 0 0).1,
   (rotation_seq_monotone_and_names exampleLog ⟨0, 0, 0⟩ 0 0).2 rfl⟩

/-- Counterexample for C6 as stated: two successive completed rotations of
the same Logger on the same clock tick are distinct rotations (different
sequence numbers) yet produce the identical backup name — there is no
tie-breaking suffix in generateBackupName. -/
theorem rotation_backup_collision_cex :
    (performRotationModel exampleLog ⟨0, 0, 0⟩ 1700000000).2
      = (performRotationModel exampleLog
          (performRotationModel exampleLog ⟨0, 0, 0⟩ 1700000000).1 1700000000).2 ∧
    (performRotationModel exampleLog ⟨0, 0, 0⟩ 1700000000).1.rotationSeq
      ≠ (performRotationModel exampleLog
          (performRotationModel exampleLog ⟨0, 0, 0⟩ 1700000000).1
          1700000000).1.rotationSeq := by
  constructor
  · rfl
  · decide

/-! ## Theorem: C9 -/

/-- C9: Rotate always returns nil — when another rotation is in flight the
CAS loser changes nothing, and when the attempted rotation fails the error
is visible only in the callback report, never in the return value. -/
theorem Rotate_returns_nil (st : RotationState) (rotationFlag performOk : Bool)
    (t : Int) :
    (Rotate st rotationFlag performOk t).2 = none ∧
    (rotationFlag = true → (Rotate st rotationFlag performOk t).1 = (st, true, [])) ∧
    (rotationFlag = false → performOk = false →
      (Rotate st rotationFlag performOk t).1 = (st, false, [("rotation")])) := by
  refine ⟨rfl, ?_, ?_⟩
  · intro h; subst h; rfl
  · intro h1 h2; subst h1; subst h2; rfl

/-- Witness for C9: Rotate evaluated while another rotation is in flight. -/
theorem Rotate_returns_nil_witness :
    (Rotate ⟨0, 0, 0⟩ true true 0).2 = none ∧
    (Rotate ⟨0, 0, 0⟩ true true 0).1 = (⟨0, 0, 0⟩, true, []) :=
  ⟨(Rotate_returns_nil ⟨0, 0, 0⟩ true true 0).1,
   (Rotate_returns_nil ⟨0, 0, 0⟩ true true 0).2.1 rfl⟩

/-! ## Theorem: C10 -/

/-- C10: when file.Write fails, writeSync returns (n, err) immediately and
leaves the bytes-written counter and the whole rotation state (sequence,
flag, creation instant) unchanged — they are updated only after a
successful file write. -/
theorem writeSync_error_preserves (st : SyncState) (n e : Nat)
    (shouldRot performOk : Bool) (latency : Nat) (nowSec : Int) :
    (writeSync st n (some e) shouldRot performOk latency nowSec).2 = (n, some e) ∧
    (writeSync st n (some e) shouldRot performOk latency nowSec).1.bytesWritten
      = st.bytesWritten ∧
    (writeSync st n (some e) shouldRot performOk latency nowSec).1.rotationSeq
      = st.rotationSeq ∧
    (writeSync st n (some e) shouldRot performOk latency nowSec).1.rotationFlag
      = st.rotationFlag ∧
    (writeSync st n (some e) shouldRot performOk latency nowSec).1.fileCreated
      = st.fileCreated := by
  by_cases h : st.rotationFlag = true <;> simp [writeSync, h]

/-! ## Theorems: C8 -/

theorem Close_done (l : CloseState) (hc hw ht hf : Bool) (e : Option Nat)
    (h : l.closeDone = true) : Close l hc hw ht hf e = (l, none) := by
  simp [Close, h]

theorem Close_sets_done (l : CloseState) (hc hw ht hf : Bool) (e : Option Nat) :
    (Close l hc hw ht hf e).1.closeDone = true := by
  by_cases h : l.closeDone = true <;> simp [Close, h]

/-- C8 (amended): a second Close performs no further shutdown actions (the
logger state is unchanged) and returns nil; whenever the first Close
succeeded (returned nil), the second call therefore returns the same result
as a single Close. -/
theorem close_second_noop (l : CloseState) (hc hw ht hf hc2 hw2 ht2 hf2 : Bool)
    (e e2 : Option Nat) :
    (Close (Close l hc hw ht hf e).1 hc2 hw2 ht2 hf2 e2).1
        = (Close l hc hw ht hf e).1 ∧
    (Close (Close l hc hw ht hf e).1 hc2 hw2 ht2 hf2 e2).2 = none ∧
    ((Close l hc hw ht hf e).2 = none →
      (Close (Close l hc hw ht hf e).1 hc2 hw2 ht2 hf2 e2).2
        = (Close l hc hw ht hf e).2) := by
  have h2 := Close_done (Close l hc hw ht hf e).1 hc2 hw2 ht2 hf2 e2
    (Close_sets_done l hc hw ht hf e)
  refine ⟨by rw [h2], by rw [h2], ?_⟩
  intro hnone
  rw [h2, hnone]

/-- Witness for C8: both Close calls evaluated on a fresh logger whose file
close succeeds. -/
theorem close_second_noop_witness :
    (Close (Close ⟨false, false, false, false, false⟩ true true true true none).1
        true true true true none).2
      = (Close ⟨false, false, false, false, false⟩ true true true true none).2 :=
  (close_second_noop ⟨false, false, false, false, false⟩ true true true true
    true true true true none none).2.2 rfl

/-- Counterexample for C8 as stated: when the first Close fails (file.Close
returns an error), the second Close returns nil — not the same result as a
single Close. -/
theorem close_idempotent_cex :
    (Close ⟨false, false, false, false, false⟩ true true true true (some 7)).2
      = some 7 ∧
    (Close (Close ⟨false, false, false, false, false⟩ true true true true
        (some 7)).1 true true true true (some 7)).2 = none ∧
    (some 7 : Option Nat) ≠ none := by decide

/-! ## Helper lemmas about the parsing functions -/

theorem foldDigits_nil (x : Nat) : foldDigits x [] = x := rfl

theorem foldDigits_cons (x : Nat) (c : Char) (cs : List Char) :
    foldDigits x (c :: cs) = foldDigits (x * 10 + (c.toNat - 48)) cs := rfl

theorem foldDigits_le (ds : List Char) : ∀ x : Nat, x ≤ foldDigits x ds := by
  induction ds with
  | nil => intro x; rw [foldDigits_nil]
  | cons c cs ih =>
    intro x
    rw [foldDigits_cons]
    exact le_trans (by omega) (ih (x * 10 + (c.toNat - 48)))

theorem digit_not_sign {c : Char} (h : isDigitChar c) : ¬ (c = '-' ∨ c = '+') := by
  rintro (rfl | rfl) <;> exact absurd h (by decide)

theorem leadingIntGo_digits (ds : List Char) :
    ∀ (rest : List Char) (x : Nat),
      (∀ c ∈ ds, isDigitChar c) →
      (∀ c, rest.head? = some c → ¬ isDigitChar c) →
      foldDigits x ds ≤ 2 ^ 63 / 10 →
      leadingIntGo (ds ++ rest) x = some (foldDigits x ds, rest) := by
  induction ds with
  | nil =>
    intro rest x _ hrest _
    cases rest with
    | nil => rfl
    | cons c tl =>
      have hc := hrest c rfl
      show leadingIntGo (c :: tl) x = some (x, c :: tl)
      simp only [leadingIntGo, if_neg hc]
  | cons c cs ih =>
    intro rest x hds hrest hbound
    have hc : isDigitChar c := hds c (by simp)
    rw [foldDigits_cons] at hbound
    have hx : ¬ 2 ^ 63 / 10 < x := by
      have h1 := foldDigits_le cs (x * 10 + (c.toNat - 48))
      omega
    have hy : ¬ 2 ^ 63 < x * 10 + (c.toNat - 48) := by
      have h1 := foldDigits_le cs (x * 10 + (c.toNat - 48))
      have h2 : (2 : Nat) ^ 63 / 10 ≤ 2 ^ 63 := Nat.div_le_self _ _
      omega
    show leadingIntGo (c :: (cs ++ rest)) x = some (foldDigits x (c :: cs), rest)
    rw [foldDigits_cons]
    simp only [leadingIntGo, if_pos hc, if_neg hx, if_neg hy]
    exact ih rest _ (fun d hd => hds d (by simp [hd])) hrest hbound

theorem leadingIntGo_digits_or (ds : List Char) :
    ∀ (rest : List Char) (x : Nat),
      (∀ c ∈ ds, isDigitChar c) →
      (∀ c, rest.head? = some c → ¬ isDigitChar c) →
      leadingIntGo (ds ++ rest) x = none ∨
        leadingIntGo (ds ++ rest) x = some (foldDigits x ds, rest) := by
  induction ds with
  | nil =>
    intro rest x _ hrest
    right
    cases rest with
    | nil => rfl
    | cons c tl =>
      have hc := hrest c rfl
      show leadingIntGo (c :: tl) x = some (x, c :: tl)
      simp only [leadingIntGo, if_neg hc]
  | cons c cs ih =>
    intro rest x hds hrest
    have hc : isDigitChar c := hds c (by simp)
    have htail : ∀ d ∈ cs, isDigitChar d := fun d hd => hds d (by simp [hd])
    show leadingIntGo (c :: (cs ++ rest)) x = none ∨ _
    by_cases h1 : 2 ^ 63 / 10 < x
    · left
      simp only [leadingIntGo, if_pos hc, if_pos h1]
    · by_cases h2 : 2 ^ 63 < x * 10 + (c.toNat - 48)
      · left
        simp only [leadingIntGo, if_pos hc, if_neg h1, if_pos h2]
      · have hrec := ih rest (x * 10 + (c.toNat - 48)) htail hrest
        simp only [leadingIntGo, if_pos hc, if_neg h1, if_neg h2]
        exact hrec

theorem leadingFractionGo_digits (bs : List Char) :
    ∀ (rest : List Char) (x scale : Nat) (ov : Bool),
      (∀ c ∈ bs, isDigitChar c) →
      (∀ c, rest.head? = some c → ¬ isDigitChar c) →
      ∃ f sc, leadingFractionGo (bs ++ rest) x scale ov = (f, sc, rest) := by
  induction bs with
  | nil =>
    intro rest x scale ov _ hrest
    cases rest with
    | nil => exact ⟨x, scale, rfl⟩
    | cons c tl =>
      have hc := hrest c rfl
      exact ⟨x, scale, by simp [leadingFractionGo, hc]⟩
  | cons c cs ih =>
    intro rest x scale ov hbs hrest
    have hc : isDigitChar c := hbs c (by simp)
    have htail : ∀ d ∈ cs, isDigitChar d := fun d hd => hbs d (by simp [hd])
    show ∃ f sc, leadingFractionGo (c :: (cs ++ rest)) x scale ov = (f, sc, rest)
    cases ov with
    | true =>
      obtain ⟨f, sc, h⟩ := ih rest x scale true htail hrest
      refine ⟨f, sc, ?_⟩
      simp only [leadingFractionGo, if_pos hc]
      rw [if_pos trivial]
      exact h
    | false =>
      by_cases h1 : (2 ^ 63 - 1) / 10 < x
      · obtain ⟨f, sc, h⟩ := ih rest x scale true htail hrest
        refine ⟨f, sc, ?_⟩
        simp only [leadingFractionGo, if_pos hc]
        rw [if_neg Bool.false_ne_true, if_pos h1]
        exact h
      · by_cases h2 : 2 ^ 63 < x * 10 + (c.toNat - 48)
        · obtain ⟨f, sc, h⟩ := ih rest x scale true htail hrest
          refine ⟨f, sc, ?_⟩
          simp only [leadingFractionGo, if_pos hc]
          rw [if_neg Bool.false_ne_true, if_neg h1, if_pos h2]
          exact h
        · obtain ⟨f, sc, h⟩ :=
            ih rest (x * 10 + (c.toNat - 48)) (scale * 10) false htail hrest
          refine ⟨f, sc, ?_⟩
          simp only [leadingFractionGo, if_pos hc]
          rw [if_neg Bool.false_ne_true, if_neg h1, if_neg h2]
          exact h

theorem takeWhile_all {p : Char → Bool} :
    ∀ l : List Char, (∀ c ∈ l, p c = true) → l.takeWhile p = l := by
  intro l h
  induction l with
  | nil => rfl
  | cons c cs ih =>
    have hc := h c (by simp)
    simp only [List.takeWhile_cons, hc, if_pos]
    exact congrArg (c :: ·) (ih (fun d hd => h d (by simp [hd])))

theorem decValAux_append_digits (ds : List Char) :
    ∀ (rest : List Char) (acc : Nat), (∀ c ∈ ds, isDigitChar c) →
      decValAux (ds ++ rest) acc = decValAux rest (foldDigits acc ds) := by
  induction ds with
  | nil => intro rest acc _; rfl
  | cons c cs ih =>
    intro rest acc hds
    have hc := hds c (by simp)
    show decValAux (c :: (cs ++ rest)) acc = _
    simp only [decValAux, if_pos hc]
    exact ih rest _ (fun d hd => hds d (by simp [hd]))

theorem decValAux_digits (ds : List Char) (acc : Nat)
    (h : ∀ c ∈ ds, isDigitChar c) : decValAux ds acc = some (foldDigits acc ds) := by
  have h2 := decValAux_append_digits ds [] acc h
  simpa [decValAux] using h2

theorem parseInt64_digits (ds : List Char) (hne : ds ≠ [])
    (h : ∀ c ∈ ds, isDigitChar c) (hlt : digitsVal ds < 2 ^ 63) :
    parseInt64 ds = some ((digitsVal ds : Nat) : Int) := by
  obtain ⟨c, cs, rfl⟩ := List.exists_cons_of_ne_nil hne
  have hc : isDigitChar c := h c (by simp)
  have hsign := digit_not_sign hc
  have hdash : ¬ c = '-' := fun hh => hsign (Or.inl hh)
  have hlt' : foldDigits 0 (c :: cs) < 2 ^ 63 := hlt
  simp only [parseInt64, if_neg hsign]
  rw [if_neg (by simp : ¬ (c :: cs = [])), decValAux_digits (c :: cs) 0 h]
  dsimp only
  rw [if_neg hdash, if_pos hlt']
  rfl

theorem parseInt64_decimal_none (xs ys : List Char)
    (hxs : ∀ c ∈ xs, isDigitChar c) :
    parseInt64 (xs ++ '.' :: ys) = none := by
  cases xs with
  | nil =>
    simp only [List.nil_append, parseInt64]
    rw [if_neg (by decide : ¬ ('.' = '-' ∨ '.' = '+'))]
    rw [if_neg (by simp : ¬ ('.' :: ys = []))]
    rw [show decValAux ('.' :: ys) 0 = none by simp [decValAux, isDigitChar]]
  | cons c cs =>
    have hc : isDigitChar c := hxs c (by simp)
    have hsign := digit_not_sign hc
    have htl : ∀ d ∈ cs, isDigitChar d := fun d hd => hxs d (by simp [hd])
    show parseInt64 (c :: (cs ++ '.' :: ys)) = none
    simp only [parseInt64, if_neg hsign]
    rw [if_neg (by simp : ¬ (c :: (cs ++ '.' :: ys) = []))]
    rw [show c :: (cs ++ '.' :: ys) = (c :: cs) ++ '.' :: ys from rfl]
    rw [decValAux_append_digits (c :: cs) ('.' :: ys) 0 hxs]
    rw [show decValAux ('.' :: ys) (foldDigits 0 (c :: cs)) = none by
      simp [decValAux, isDigitChar]]

theorem wrap64_eq_self (x : Int) (h1 : -(2 ^ 63) ≤ x) (h2 : x < 2 ^ 63) :
    wrap64 x = x := by
  unfold wrap64
  have e63 : (2 : Int) ^ 63 = 9223372036854775808 := by norm_num
  have e64 : (2 : Int) ^ 64 = 18446744073709551616 := by norm_num
  rw [e63, e64] at *
  rw [Int.emod_eq_of_lt (by omega) (by omega)]
  omega

theorem isSuffixOf_singleton_append (a b : Char) (xs : List Char) :
    List.isSuffixOf [a] (xs ++ [b]) = (a == b) := by
  simp [List.isSuffixOf, List.reverse_append, List.isPrefixOf]

theorem take_append_length (xs : List Char) (b : Char) :
    (xs ++ [b]).take ((xs ++ [b]).length - 1) = xs := by
  have h : (xs ++ [b]).length - 1 = xs.length := by simp
  rw [h, List.take_left]

theorem toLower_digit (c : Char) (h : isDigitChar c) : c.toLower = c := by
  have hn : ¬ (65 ≤ c.toNat ∧ c.toNat ≤ 90) := by
    obtain ⟨h1, h2⟩ := h
    omega
  simp [Char.toLower, hn]

theorem map_toLower_digits (ds : List Char) (h : ∀ c ∈ ds, isDigitChar c) :
    ds.map Char.toLower = ds := by
  induction ds with
  | nil => rfl
  | cons c cs ih =>
    simp [toLower_digit c (h c (by simp)), ih (fun d hd => h d (by simp [hd]))]

/-! ## Lemmas about the time.ParseDuration segment loop -/

theorem goParseSegs_digits_unit (k : Nat) (ds u : List Char) (mult : Nat)
    (hne : ds ≠ []) (hdig : ∀ c ∈ ds, isDigitChar c)
    (hval : digitsVal ds ≤ 1000000)
    (hu0 : u ≠ [])
    (huhead : ∀ ch, u.head? = some ch → ¬ isDigitChar ch)
    (hudot : (u.head? == some '.') = false)
    (hutake : u.takeWhile (fun ch => decide (¬ (ch = '.' ∨ isDigitChar ch))) = u)
    (hmult : unitMapGo u = some mult) (hm0 : 0 < mult)
    (hmbound : 1000000 * mult ≤ 2 ^ 63 - 1) :
    goParseSegs (k + 2) (ds ++ u) 0 = some (digitsVal ds * mult) := by
  obtain ⟨c, tl, rfl⟩ := List.exists_cons_of_ne_nil hne
  have hc : isDigitChar c := hdig c (by simp)
  have hbound10 : foldDigits 0 (c :: tl) ≤ 2 ^ 63 / 10 := by
    have h1 : (1000000 : Nat) ≤ 2 ^ 63 / 10 := by norm_num
    have h2 : digitsVal (c :: tl) = foldDigits 0 (c :: tl) := rfl
    omega
  have hlead : leadingIntGo (c :: (tl ++ u)) 0 = some (digitsVal (c :: tl), u) :=
    leadingIntGo_digits (c :: tl) u 0 hdig huhead hbound10
  have hvm : digitsVal (c :: tl) * mult ≤ 1000000 * mult :=
    Nat.mul_le_mul_right mult hval
  show goParseSegs (k + 1 + 1) (c :: (tl ++ u)) 0 = some (digitsVal (c :: tl) * mult)
  simp only [goParseSegs]
  rw [if_neg (not_not_intro (Or.inr hc)), hlead]
  dsimp only
  rw [hudot]
  have hpre : (u.length != (c :: (tl ++ u)).length) = true := by
    simp [bne_iff_ne, List.length_append]
    omega
  rw [hpre]
  simp only [Bool.false_eq_true, Bool.false_and, if_false, reduceIte]
  rw [hutake, List.drop_length, if_neg hu0, hmult]
  dsimp only
  rw [if_neg (show ¬ (2 ^ 63 / mult < digitsVal (c :: tl)) from by
    have hdiv : digitsVal (c :: tl) ≤ 2 ^ 63 / mult :=
      (Nat.le_div_iff_mul_le hm0).mpr (by omega)
    omega)]
  simp only [lt_self_iff_false, false_and, if_false, Nat.zero_add]
  rw [if_neg (by omega : ¬ 2 ^ 63 < digitsVal (c :: tl) * mult)]
  simp only [goParseSegs]
  simp

theorem goParseSegs_digits_unknown_unit (fuel : Nat) (ds u : List Char)
    (hne : ds ≠ []) (hdig : ∀ c ∈ ds, isDigitChar c)
    (hu0 : u ≠ [])
    (huhead : ∀ ch, u.head? = some ch → ¬ isDigitChar ch)
    (hudot : (u.head? == some '.') = false)
    (hutake : u.takeWhile (fun ch => decide (¬ (ch = '.' ∨ isDigitChar ch))) = u)
    (hmult : unitMapGo u = none) :
    goParseSegs (fuel + 1) (ds ++ u) 0 = none := by
  obtain ⟨c, tl, rfl⟩ := List.exists_cons_of_ne_nil hne
  have hc : isDigitChar c := hdig c (by simp)
  show goParseSegs (fuel + 1) (c :: (tl ++ u)) 0 = none
  rcases leadingIntGo_digits_or (c :: tl) u 0 hdig huhead with hlead | hlead
  · have hlead' : leadingIntGo (c :: (tl ++ u)) 0 = none := hlead
    simp only [goParseSegs]
    rw [if_neg (not_not_intro (Or.inr hc)), hlead']
  · have hlead' : leadingIntGo (c :: (tl ++ u)) 0
        = some (foldDigits 0 (c :: tl), u) := hlead
    simp only [goParseSegs]
    rw [if_neg (not_not_intro (Or.inr hc)), hlead']
    dsimp only
    rw [hudot]
    simp only [Bool.false_eq_true, Bool.false_and, if_false, reduceIte]
    split
    · rfl
    · rw [hutake, if_neg hu0, hmult]

theorem goParseSegs_decimal_none (fuel : Nat) (xs ys : List Char) (u : Char)
    (hxs : ∀ c ∈ xs, isDigitChar c) (hys : ∀ c ∈ ys, isDigitChar c)
    (hu : ¬ isDigitChar u) (hud : u ≠ '.')
    (hmu : unitMapGo [u] = none) :
    goParseSegs (fuel + 1) (xs ++ '.' :: (ys ++ [u])) 0 = none := by
  have huh : ∀ ch, ([u] : List Char).head? = some ch → ¬ isDigitChar ch := by
    intro ch h
    simp only [List.head?] at h
    injection h with h
    subst h
    exact hu
  obtain ⟨f, sc, hfr⟩ := leadingFractionGo_digits ys [u] 0 1 false hys huh
  have hptake : List.takeWhile
      (fun ch => decide (¬ (ch = '.' ∨ isDigitChar ch))) [u] = [u] := by
    apply takeWhile_all
    intro d hd
    simp only [List.mem_singleton] at hd
    subst hd
    simp [hud, hu]
  cases xs with
  | nil =>
    show goParseSegs (fuel + 1) ('.' :: (ys ++ [u])) 0 = none
    simp only [goParseSegs]
    simp only [true_or, not_true, if_false]
    rw [show leadingIntGo ('.' :: (ys ++ [u])) 0 = some (0, '.' :: (ys ++ [u])) from by
      simp only [leadingIntGo, if_neg (by decide : ¬ isDigitChar '.')]]
    dsimp only
    rw [show ((('.' :: (ys ++ [u])).head? == some '.') : Bool) = true from rfl]
    simp only [reduceIte, List.tail_cons]
    rw [hfr]
    dsimp only
    split
    · rfl
    · rw [hptake, if_neg (by simp : ¬ (([u] : List Char) = [])), hmu]
  | cons c ctl =>
    have hc : isDigitChar c := hxs c (by simp)
    have hdh : ∀ ch, ('.' :: (ys ++ [u])).head? = some ch → ¬ isDigitChar ch := by
      intro ch h
      simp only [List.head?] at h
      injection h with h
      subst h
      decide
    show goParseSegs (fuel + 1) (c :: (ctl ++ '.' :: (ys ++ [u]))) 0 = none
    rcases leadingIntGo_digits_or (c :: ctl) ('.' :: (ys ++ [u])) 0 hxs hdh with
      hlead | hlead
    · have hlead' : leadingIntGo (c :: (ctl ++ '.' :: (ys ++ [u]))) 0 = none := hlead
      simp only [goParseSegs]
      rw [if_neg (not_not_intro (Or.inr hc)), hlead']
    · have hlead' : leadingIntGo (c :: (ctl ++ '.' :: (ys ++ [u]))) 0
          = some (foldDigits 0 (c :: ctl), '.' :: (ys ++ [u])) := hlead
      simp only [goParseSegs]
      rw [if_neg (not_not_intro (Or.inr hc)), hlead']
      dsimp only
      rw [show ((('.' :: (ys ++ [u])).head? == some '.') : Bool) = true from rfl]
      simp only [reduceIte, List.tail_cons]
      rw [hfr]
      dsimp only
      split
      · rfl
      · rw [hptake, if_neg (by simp : ¬ (([u] : List Char) = [])), hmu]

/-! ## Lemmas about goParseDuration and the extended-suffix path -/

theorem goParseDuration_digits_unit (ds u : List Char) (mult : Nat)
    (hne : ds ≠ []) (hdig : ∀ c ∈ ds, isDigitChar c)
    (hval : digitsVal ds ≤ 1000000)
    (hu0 : u ≠ [])
    (huhead : ∀ ch, u.head? = some ch → ¬ isDigitChar ch)
    (hudot : (u.head? == some '.') = false)
    (hutake : u.takeWhile (fun ch => decide (¬ (ch = '.' ∨ isDigitChar ch))) = u)
    (hmult : unitMapGo u = some mult) (hm0 : 0 < mult)
    (hmbound : 1000000 * mult ≤ 2 ^ 63 - 1) :
    goParseDuration (ds ++ u) = some ((digitsVal ds * mult : Nat) : Int) := by
  obtain ⟨c, tl, rfl⟩ := List.exists_cons_of_ne_nil hne
  have hc : isDigitChar c := hdig c (by simp)
  have hdash : ¬ c = '-' := fun hh => digit_not_sign hc (Or.inl hh)
  have hplus : ¬ c = '+' := fun hh => digit_not_sign hc (Or.inr hh)
  have hvm : digitsVal (c :: tl) * mult ≤ 1000000 * mult :=
    Nat.mul_le_mul_right mult hval
  have h0 : (c :: (tl ++ u)) ≠ ['0'] := by
    simp only [ne_eq, List.cons.injEq, List.append_eq_nil]
    rintro ⟨-, -, hu⟩
    exact hu0 hu
  show goParseDuration (c :: (tl ++ u)) = some ((digitsVal (c :: tl) * mult : Nat) : Int)
  simp only [goParseDuration, hdash, hplus, false_or, if_false]
  rw [if_neg h0, if_neg (by simp : ¬ (c :: (tl ++ u) = []))]
  have hfuel : (c :: (tl ++ u)).length + 1 = (tl.length + u.length) + 2 := by
    simp only [List.length_cons, List.length_append]
  rw [hfuel]
  have hseg : goParseSegs (tl.length + u.length + 2) (c :: (tl ++ u)) 0
      = some (digitsVal (c :: tl) * mult) :=
    goParseSegs_digits_unit (tl.length + u.length) (c :: tl) u mult hne hdig hval
      hu0 huhead hudot hutake hmult hm0 hmbound
  rw [hseg]
  dsimp only
  rw [if_neg (by omega : ¬ 2 ^ 63 - 1 < digitsVal (c :: tl) * mult)]

theorem goParseDuration_digits_unknown (ds u : List Char)
    (hne : ds ≠ []) (hdig : ∀ c ∈ ds, isDigitChar c)
    (hu0 : u ≠ [])
    (huhead : ∀ ch, u.head? = some ch → ¬ isDigitChar ch)
    (hudot : (u.head? == some '.') = false)
    (hutake : u.takeWhile (fun ch => decide (¬ (ch = '.' ∨ isDigitChar ch))) = u)
    (hmult : unitMapGo u = none) :
    goParseDuration (ds ++ u) = none := by
  obtain ⟨c, tl, rfl⟩ := List.exists_cons_of_ne_nil hne
  have hc : isDigitChar c := hdig c (by simp)
  have hdash : ¬ c = '-' := fun hh => digit_not_sign hc (Or.inl hh)
  have hplus : ¬ c = '+' := fun hh => digit_not_sign hc (Or.inr hh)
  have h0 : (c :: (tl ++ u)) ≠ ['0'] := by
    simp only [ne_eq, List.cons.injEq, List.append_eq_nil]
    rintro ⟨-, -, hu⟩
    exact hu0 hu
  show goParseDuration (c :: (tl ++ u)) = none
  simp only [goParseDuration, hdash, hplus, false_or, if_false]
  rw [if_neg h0, if_neg (by simp : ¬ (c :: (tl ++ u) = []))]
  have hseg : goParseSegs ((c :: (tl ++ u)).length + 1) (c :: (tl ++ u)) 0 = none :=
    goParseSegs_digits_unknown_unit ((c :: (tl ++ u)).length) (c :: tl) u hne hdig
      hu0 huhead hudot hutake hmult
  rw [hseg]

theorem goParseDuration_decimal_none (xs ys : List Char) (u : Char)
    (hxs : ∀ c ∈ xs, isDigitChar c) (hys : ∀ c ∈ ys, isDigitChar c)
    (hu : ¬ isDigitChar u) (hud : u ≠ '.')
    (hmu : unitMapGo [u] = none) :
    goParseDuration (xs ++ '.' :: (ys ++ [u])) = none := by
  cases xs with
  | nil =>
    have hdash : ¬ ('.' : Char) = '-' := by decide
    have hplus : ¬ ('.' : Char) = '+' := by decide
    have h0 : ('.' :: (ys ++ [u])) ≠ ['0'] := by
      simp only [ne_eq, List.cons.injEq]
      rintro ⟨h, -⟩
      exact absurd h (by decide)
    show goParseDuration ('.' :: (ys ++ [u])) = none
    simp only [goParseDuration, hdash, hplus, false_or, if_false]
    rw [if_neg h0, if_neg (by simp : ¬ ('.' :: (ys ++ [u]) = []))]
    have hseg : goParseSegs (('.' :: (ys ++ [u])).length + 1) ('.' :: (ys ++ [u])) 0
        = none :=
      goParseSegs_decimal_none (('.' :: (ys ++ [u])).length) [] ys u (by simp) hys
        hu hud hmu
    rw [hseg]
  | cons c ctl =>
    have hc : isDigitChar c := hxs c (by simp)
    have hdash : ¬ c = '-' := fun hh => digit_not_sign hc (Or.inl hh)
    have hplus : ¬ c = '+' := fun hh => digit_not_sign hc (Or.inr hh)
    have h0 : (c :: (ctl ++ '.' :: (ys ++ [u]))) ≠ ['0'] := by
      simp
    show goParseDuration (c :: (ctl ++ '.' :: (ys ++ [u]))) = none
    simp only [goParseDuration, hdash, hplus, false_or, if_false]
    rw [if_neg h0, if_neg (by simp : ¬ (c :: (ctl ++ '.' :: (ys ++ [u])) = []))]
    have hseg : goParseSegs ((c :: (ctl ++ '.' :: (ys ++ [u]))).length + 1)
        (c :: (ctl ++ '.' :: (ys ++ [u]))) 0 = none :=
      goParseSegs_decimal_none ((c :: (ctl ++ '.' :: (ys ++ [u]))).length)
        (c :: ctl) ys u hxs hys hu hud hmu
    rw [hseg]

theorem unitMapGo_cases (u : List Char) (mult : Nat) (h : unitMapGo u = some mult) :
    (u = ['n', 's'] ∧ mult = 1) ∨ (u = ['u', 's'] ∧ mult = 1000) ∨
    (u = ['µ', 's'] ∧ mult = 1000) ∨ (u = ['μ', 's'] ∧ mult = 1000) ∨
    (u = ['m', 's'] ∧ mult = 1000000) ∨ (u = ['s'] ∧ mult = 1000000000) ∨
    (u = ['m'] ∧ mult = 60000000000) ∨ (u = ['h'] ∧ mult = 3600000000000) := by
  unfold unitMapGo at h
  split_ifs at h <;> simp_all

theorem ParseDuration_go (s : List Char) (d : Int)
    (h : goParseDuration s = some d) : ParseDuration s = some d := by
  have hs : s ≠ [] := by
    intro he
    rw [he] at h
    exact Option.noConfusion h
  rw [ParseDuration, if_neg hs, h]

theorem goParseDuration_ext_d (ds : List Char) (hne : ds ≠ [])
    (hdig : ∀ c ∈ ds, isDigitChar c) :
    goParseDuration (ds ++ ['d']) = none :=
  goParseDuration_digits_unknown ds ['d'] hne hdig (by simp)
    (by intro ch hh; simp only [List.head?] at hh; injection hh with hh; subst hh; decide)
    (by decide) (by decide) (by decide)

theorem goParseDuration_ext_w (ds : List Char) (hne : ds ≠ [])
    (hdig : ∀ c ∈ ds, isDigitChar c) :
    goParseDuration (ds ++ ['w']) = none :=
  goParseDuration_digits_unknown ds ['w'] hne hdig (by simp)
    (by intro ch hh; simp only [List.head?] at hh; injection hh with hh; subst hh; decide)
    (by decide) (by decide) (by decide)

theorem goParseDuration_ext_y (ds : List Char) (hne : ds ≠ [])
    (hdig : ∀ c ∈ ds, isDigitChar c) :
    goParseDuration (ds ++ ['y']) = none :=
  goParseDuration_digits_unknown ds ['y'] hne hdig (by simp)
    (by intro ch hh; simp only [List.head?] at hh; injection hh with hh; subst hh; decide)
    (by decide) (by decide) (by decide)

theorem map_toLower_digits_snoc (ds : List Char) (b : Char)
    (hdig : ∀ c ∈ ds, isDigitChar c) (hb : b.toLower = b) :
    (ds ++ [b]).map Char.toLower = ds ++ [b] := by
  rw [List.map_append, map_toLower_digits ds hdig]
  simp [hb]

theorem wrap64_nat (n : Nat) (h : n < 2 ^ 63) : wrap64 ((n : Int)) = ((n : Int)) := by
  apply wrap64_eq_self
  · have h0 := Int.natCast_nonneg n
    have e63 : -((2 : Int) ^ 63) ≤ 0 := by norm_num
    omega
  · exact_mod_cast h

theorem ext_prod_lt (v m : Nat) (hv : v ≤ 250) (hm : m ≤ 31536000000000000) :
    v * m < 2 ^ 63 := by
  have h1 : v * m ≤ 250 * 31536000000000000 := Nat.mul_le_mul hv hm
  have h2 : (250 : Nat) * 31536000000000000 < 2 ^ 63 := by norm_num
  omega

theorem map_toLower_decimal (xs ys : List Char) (b : Char)
    (hxs : ∀ c ∈ xs, isDigitChar c) (hys : ∀ c ∈ ys, isDigitChar c)
    (hb : b.toLower = b) :
    (xs ++ '.' :: (ys ++ [b])).map Char.toLower = xs ++ '.' :: (ys ++ [b]) := by
  rw [List.map_append, map_toLower_digits xs hxs, List.map_cons,
    show ('.' : Char).toLower = '.' from by decide, List.map_append,
    map_toLower_digits ys hys]
  simp [hb]

theorem ParseDuration_ext_eval_d (ds : List Char) (hne : ds ≠ [])
    (hdig : ∀ c ∈ ds, isDigitChar c) (hval : digitsVal ds < 2 ^ 63)
    (hprod : digitsVal ds * 86400000000000 < 2 ^ 63) :
    ParseDuration (ds ++ ['d'])
      = some ((digitsVal ds * 86400000000000 : Nat) : Int) := by
  have hs : ds ++ ['d'] ≠ [] := by simp
  have hgo := goParseDuration_ext_d ds hne hdig
  have ht := map_toLower_digits_snoc ds 'd' hdig (by decide)
  rw [ParseDuration, if_neg hs, hgo]
  dsimp only
  rw [ht]
  simp only [isSuffixOf_singleton_append]
  rw [show (('d' == 'd') : Bool) = true from by decide]
  simp only [eq_self_iff_true, if_true]
  try rw [take_append_length]
  rw [parseInt64_digits ds hne hdig hval]
  dsimp only
  have hcast : ((digitsVal ds : Int) * 86400000000000)
      = ((digitsVal ds * 86400000000000 : Nat) : Int) := by push_cast; ring
  rw [hcast, wrap64_nat _ hprod]

theorem ParseDuration_ext_eval_w (ds : List Char) (hne : ds ≠ [])
    (hdig : ∀ c ∈ ds, isDigitChar c) (hval : digitsVal ds < 2 ^ 63)
    (hprod : digitsVal ds * 604800000000000 < 2 ^ 63) :
    ParseDuration (ds ++ ['w'])
      = some ((digitsVal ds * 604800000000000 : Nat) : Int) := by
  have hs : ds ++ ['w'] ≠ [] := by simp
  have hgo := goParseDuration_ext_w ds hne hdig
  have ht := map_toLower_digits_snoc ds 'w' hdig (by decide)
  rw [ParseDuration, if_neg hs, hgo]
  dsimp only
  rw [ht]
  simp only [isSuffixOf_singleton_append]
  rw [show (('d' == 'w') : Bool) = false from by decide,
    show (('w' == 'w') : Bool) = true from by decide]
  simp only [Bool.false_eq_true, if_false, eq_self_iff_true, if_true]
  try rw [take_append_length]
  rw [parseInt64_digits ds hne hdig hval]
  dsimp only
  have hcast : ((digitsVal ds : Int) * 604800000000000)
      = ((digitsVal ds * 604800000000000 : Nat) : Int) := by push_cast; ring
  rw [hcast, wrap64_nat _ hprod]

theorem ParseDuration_ext_eval_y (ds : List Char) (hne : ds ≠ [])
    (hdig : ∀ c ∈ ds, isDigitChar c) (hval : digitsVal ds < 2 ^ 63)
    (hprod : digitsVal ds * 31536000000000000 < 2 ^ 63) :
    ParseDuration (ds ++ ['y'])
      = some ((digitsVal ds * 31536000000000000 : Nat) : Int) := by
  have hs : ds ++ ['y'] ≠ [] := by simp
  have hgo := goParseDuration_ext_y ds hne hdig
  have ht := map_toLower_digits_snoc ds 'y' hdig (by decide)
  rw [ParseDuration, if_neg hs, hgo]
  dsimp only
  rw [ht]
  simp only [isSuffixOf_singleton_append]
  rw [show (('d' == 'y') : Bool) = false from by decide,
    show (('w' == 'y') : Bool) = false from by decide,
    show (('y' == 'y') : Bool) = true from by decide]
  simp only [Bool.false_eq_true, if_false, eq_self_iff_true, if_true]
  try rw [take_append_length]
  rw [parseInt64_digits ds hne hdig hval]
  dsimp only
  have hcast : ((digitsVal ds : Int) * 31536000000000000)
      = ((digitsVal ds * 31536000000000000 : Nat) : Int) := by push_cast; ring
  rw [hcast, wrap64_nat _ hprod]

theorem ParseDuration_decimal_eval (xs ys : List Char) (b : Char)
    (hxs : ∀ c ∈ xs, isDigitChar c) (hys : ∀ c ∈ ys, isDigitChar c)
    (hsfx : b = 'd' ∨ b = 'w' ∨ b = 'y') :
    ParseDuration (xs ++ '.' :: (ys ++ [b])) = none := by
  have hb : b.toLower = b := by rcases hsfx with rfl | rfl | rfl <;> decide
  have hbd : ¬ isDigitChar b := by rcases hsfx with rfl | rfl | rfl <;> decide
  have hbdot : b ≠ '.' := by rcases hsfx with rfl | rfl | rfl <;> decide
  have hbmu : unitMapGo [b] = none := by rcases hsfx with rfl | rfl | rfl <;> decide
  have hs : xs ++ '.' :: (ys ++ [b]) ≠ [] := by simp
  have hgo := goParseDuration_decimal_none xs ys b hxs hys hbd hbdot hbmu
  have ht := map_toLower_decimal xs ys b hxs hys hb
  have hassoc : xs ++ '.' :: (ys ++ [b]) = (xs ++ '.' :: ys) ++ [b] := by simp
  rw [ParseDuration, if_neg hs, hgo]
  dsimp only
  rw [ht, hassoc]
  rcases hsfx with rfl | rfl | rfl
  · simp only [isSuffixOf_singleton_append]
    rw [show (('d' == 'd') : Bool) = true from by decide]
    simp only [eq_self_iff_true, if_true]
    try rw [take_append_length]
    rw [parseInt64_decimal_none xs ys hxs]
  · simp only [isSuffixOf_singleton_append]
    rw [show (('d' == 'w') : Bool) = false from by decide,
      show (('w' == 'w') : Bool) = true from by decide]
    simp only [Bool.false_eq_true, if_false, eq_self_iff_true, if_true]
    try rw [take_append_length]
    rw [parseInt64_decimal_none xs ys hxs]
  · simp only [isSuffixOf_singleton_append]
    rw [show (('d' == 'y') : Bool) = false from by decide,
      show (('w' == 'y') : Bool) = false from by decide,
      show (('y' == 'y') : Bool) = true from by decide]
    simp only [Bool.false_eq_true, if_false, eq_self_iff_true, if_true]
    try rw [take_append_length]
    rw [parseInt64_decimal_none xs ys hxs]

/-! ## Theorems: C7 -/

/-- C7 (amended): ParseDuration accepts every string accepted by Go's
time.ParseDuration — standard literals with the units ns/us/ms/s/m/h,
decimal values such as 1.5h included — and additionally the extended
suffixes d (days = 24 h), w (weeks = 7 d) and y (years = 365 d) with an
integer number part; a non-integer decimal number part is rejected only on
the extended-suffix path (where the number part must parse as an int64).
Bounds on the quantified digit strings keep the values inside the overflow
checks of the respective parsers. -/
theorem ParseDuration_spec :
    (∀ (s : List Char) (d : Int), goParseDuration s = some d →
      ParseDuration s = some d) ∧
    (∀ ds : List Char, ds ≠ [] → (∀ c ∈ ds, isDigitChar c) →
      digitsVal ds ≤ 1000000 →
      ∀ (u : List Char) (mult : Nat), unitMapGo u = some mult →
        ParseDuration (ds ++ u) = some ((digitsVal ds * mult : Nat) : Int)) ∧
    (∀ ds : List Char, ds ≠ [] → (∀ c ∈ ds, isDigitChar c) →
      digitsVal ds ≤ 250 →
      ParseDuration (ds ++ ['d'])
          = some ((digitsVal ds * 86400000000000 : Nat) : Int) ∧
      ParseDuration (ds ++ ['w'])
          = some ((digitsVal ds * 604800000000000 : Nat) : Int) ∧
      ParseDuration (ds ++ ['y'])
          = some ((digitsVal ds * 31536000000000000 : Nat) : Int)) ∧
    (∀ (xs ys : List Char) (b : Char), (∀ c ∈ xs, isDigitChar c) →
      (∀ c ∈ ys, isDigitChar c) → (b = 'd' ∨ b = 'w' ∨ b = 'y') →
      ParseDuration (xs ++ '.' :: (ys ++ [b])) = none) := by
  refine ⟨ParseDuration_go, ?_, ?_, ParseDuration_decimal_eval⟩
  · intro ds hne hdig hval u mult hmult
    have happ : goParseDuration (ds ++ u)
        = some ((digitsVal ds * mult : Nat) : Int) := by
      rcases unitMapGo_cases u mult hmult with hcase | hcase | hcase | hcase |
        hcase | hcase | hcase | hcase <;>
      · obtain ⟨rfl, rfl⟩ := hcase
        exact goParseDuration_digits_unit ds _ _ hne hdig hval (by simp)
          (by intro ch hh; simp only [List.head?] at hh; injection hh with hh;
              subst hh; decide)
          (by decide) (by decide) (by decide) (by decide) (by decide)
    exact ParseDuration_go _ _ happ
  · intro ds hne hdig hval
    have hval' : digitsVal ds < 2 ^ 63 := by
      have hbig : (250 : Nat) < 2 ^ 63 := by norm_num
      omega
    exact ⟨ParseDuration_ext_eval_d ds hne hdig hval'
        (ext_prod_lt _ _ hval (by norm_num)),
      ParseDuration_ext_eval_w ds hne hdig hval'
        (ext_prod_lt _ _ hval (by norm_num)),
      ParseDuration_ext_eval_y ds hne hdig hval'
        (ext_prod_lt _ _ hval (by norm_num))⟩

/-- Witness for C7: the amended theorem evaluated at the extended duration
7d (7 days = 604800000000000 ns). -/
theorem ParseDuration_spec_witness :
    ParseDuration (['7'] ++ ['d'])
      = some ((digitsVal ['7'] * 86400000000000 : Nat) : Int) :=
  (ParseDuration_spec.2.2.1 ['7'] (by decide) (by decide) (by decide)).1

/-- Counterexample for C7 as stated: the duration string 1.5h has a decimal
(non-integer) numeric part, yet ParseDuration accepts it (Go's
time.ParseDuration, tried first, handles decimals) and returns
5400000000000 ns instead of an error. -/
theorem ParseDuration_decimal_accepted_cex :
    ParseDuration ['1', '.', '5', 'h'] = some 5400000000000 ∧
    ParseDuration ['1', '.', '5', 'h'] ≠ none := by
  constructor
  · decide
  · decide

/-! ## Theorems: C5 -/

/-- C5 (amended): NewWithConfig fails exactly for a nil config, an empty
filename, a conflicting age specification (both MaxAge and MaxAgeStr set),
or an unparseable MaxAgeStr.  Size configuration — conflicting MaxSize and
MaxSizeStr, or an unparseable MaxSizeStr — is not validated by the
constructor: ParseSize runs lazily at the first write (initSizeConfig) and
failures are reported through the ErrorCallback. -/
theorem NewWithConfig_error_iff (cfg : LoggerConfig) :
    (NewWithConfig (some cfg) = none ↔
      (cfg.filename = [] ∨ ((0 : Int) < cfg.maxAge ∧ cfg.maxAgeStr ≠ []) ∨
        (cfg.maxAgeStr ≠ [] ∧ ParseDuration cfg.maxAgeStr = none))) ∧
    NewWithConfig none = none := by
  refine ⟨?_, rfl⟩
  by_cases h1 : cfg.filename = []
  · simp [NewWithConfig, h1]
  · simp only [NewWithConfig, if_neg h1]
    by_cases h2 : (0 : Int) < cfg.maxAge ∧ cfg.maxAgeStr ≠ []
    · rw [if_pos h2]
      simp [h1, h2]
    · rw [if_neg h2]
      by_cases h3 : cfg.maxAgeStr ≠ []
      · rw [if_pos h3]
        cases hpd : ParseDuration cfg.maxAgeStr with
        | none => simp [h1, h2, h3, hpd]
        | some d =>
          simp [h1, h2, h3, hpd]
          exact le_of_not_lt (fun hlt => h2 ⟨hlt, h3⟩)
      · rw [if_neg h3]
        simp [h1, h2, h3]

/-- Counterexample for C5 as stated: a config whose MaxSizeStr is not a
parseable size, and a config that sets both MaxSize and MaxSizeStr, are both
accepted by NewWithConfig — a Logger is produced with no synchronous
error. -/
theorem NewWithConfig_size_not_validated_cex :
    ParseSize ['n', 'o', 't', 'a', 's', 'i', 'z', 'e'] = none ∧
    (NewWithConfig (some cfgBadSizeStr)).isSome = true ∧
    (NewWithConfig (some cfgConflictSize)).isSome = true := by
  refine ⟨by decide, by decide, by decide⟩

end Lethe
